import Mathlib

/-!
Shallow embedding of the persisted-state reconciliation core of the
hag-toolkit-live repository (storage helper, settings/category weights,
roster with contracts, auction targets, live prices, budget reconciler).

JavaScript dynamic values are embedded as the inductive type `JSVal`;
JavaScript numbers are embedded as `Rat` (with a separate `vnan`
constructor standing for the non-finite values, which the code only ever
inspects through `Number.isFinite`).  Machine floats never overflow in the
scenarios the code guards for, so `Rat` arithmetic is a faithful model of
the arithmetic actually performed (integer truncation, clamping, sums).
String-to-number coercion is embedded for plain decimal numerals; all other
strings coerce to `vnan`-like failure (`none`), matching `Number("...")`
returning `NaN` on them.
-/

namespace HAG

/-- Embedded JavaScript value: finite number, NaN-or-non-finite, string,
boolean, null, undefined. -/
inductive JSVal where
  | vnum (x : Rat)
  | vnan
  | vstr (s : String)
  | vbool (b : Bool)
  | vnull
  | vundef
  deriving DecidableEq, Repr

open JSVal

/-- Embedded JavaScript truthiness test. -/
def jsTruthy : JSVal → Bool
  | vnum x => x ≠ 0
  | vnan => false
  | vstr s => s ≠ ""
  | vbool b => b
  | vnull => false
  | vundef => false

/-- Embedded nullish-coalescing operator: the left operand unless it is
null or undefined. -/
def jsNullish (v d : JSVal) : JSVal :=
  if v = vnull ∨ v = vundef then d else v

/-- Embedded logical-or operator: the left operand if truthy, else the right. -/
def jsOr (v d : JSVal) : JSVal :=
  if jsTruthy v then v else d

/-- Embedded logical-or on strings (both operands already coerced). -/
def strOr (a b : String) : String :=
  if a ≠ "" then a else b

/-- Embedded String.prototype.trim: drop leading whitespace, then drop
trailing whitespace. -/
def jsTrim (s : String) : String :=
  ⟨(s.data.dropWhile (fun c => c.isWhitespace)).rdropWhile (fun c => c.isWhitespace)⟩

/-- Embedded String.prototype.toLowerCase (ASCII-adequate for this code). -/
def jsLower (s : String) : String :=
  ⟨s.data.map Char.toLower⟩

/-- Numeric value of a digit character list, most significant first. -/
def digitsVal (l : List Char) : Nat :=
  l.foldl (fun a c => a * 10 + (c.toNat - 48)) 0

/-- Parse an unsigned decimal numeral (with optional fraction part);
`none` models NaN. -/
def parseUnsigned (l : List Char) : Option Rat :=
  let ip := l.takeWhile (fun c => c.isDigit)
  let rest := l.dropWhile (fun c => c.isDigit)
  match rest with
  | [] => if ip.isEmpty then none else some (digitsVal ip : Rat)
  | '.' :: frac =>
      if frac.all (fun c => c.isDigit) ∧ ¬(ip.isEmpty ∧ frac.isEmpty) then
        some ((digitsVal ip : Rat) + (digitsVal frac : Rat) / ((10 : Rat) ^ frac.length))
      else none
  | _ => none

/-- Parse a signed decimal numeral; `none` models NaN. -/
def parseSigned (l : List Char) : Option Rat :=
  match l with
  | '-' :: r => (parseUnsigned r).map (fun x => -x)
  | '+' :: r => parseUnsigned r
  | _ => parseUnsigned l

/-- Embedded Number(string): trimmed empty string is 0, plain decimal
numerals parse, everything else is NaN (`none`). -/
def strToNumber (s : String) : Option Rat :=
  let t := jsTrim s
  if t = "" then some 0 else parseSigned t.data

/-- Embedded Number(value) coercion; `none` models NaN (and the other
non-finite results, which the code only tests via Number.isFinite). -/
def jsToNumber : JSVal → Option Rat
  | vnum x => some x
  | vnan => none
  | vstr s => strToNumber s
  | vbool b => some (if b then 1 else 0)
  | vnull => some 0
  | vundef => none

/-- Embedded Math.trunc on a finite number (round toward zero). -/
def jsTrunc (x : Rat) : Int :=
  x.num.tdiv (x.den : Int)

/-- Embedded String(value) coercion.  Non-integer number rendering is
approximated (no claim exercises it); integers render as in JavaScript. -/
def jsToString : JSVal → String
  | vnum x => if x.den = 1 then toString x.num else toString x
  | vnan => "NaN"
  | vstr s => s
  | vbool b => if b then "true" else "false"
  | vnull => "null"
  | vundef => "undefined"

/-- Embeds the source helper toInt: Number(), Number.isFinite guard,
Math.trunc, with a fallback. -/
def toInt (v : JSVal) (fallback : Int) : Int :=
  match jsToNumber v with
  | some x => jsTrunc x
  | none => fallback

/-- Embeds the source helper clampInt: toInt with the lower bound as
fallback, clamped into the inclusive range. -/
def clampInt (v : JSVal) (lo hi : Int) : Int :=
  max lo (min hi (toInt v lo))

/-- Splits a character list into maximal whitespace-free words (the
accumulator carries the current word reversed). -/
def wordsAux : List Char → List Char → List (List Char)
  | [], acc => if acc.isEmpty then [] else [acc.reverse]
  | c :: rest, acc =>
      if c.isWhitespace then
        if acc.isEmpty then wordsAux rest [] else acc.reverse :: wordsAux rest []
      else wordsAux rest (c :: acc)

/-- Joins words with single spaces. -/
def joinWords : List (List Char) → List Char
  | [] => []
  | [w] => w
  | w :: ws => w ++ ' ' :: joinWords ws

/-- Modelled from the spec: the KeyResolver module (player-key.js) is not
under src/.  Per §4.1 and the glossary, the canonical key is derived from
the player's type and the case/whitespace-insensitively normalized name:
lowercase the name, trim it and collapse internal whitespace runs. -/
def normalizeName (s : String) : String :=
  ⟨joinWords (wordsAux (jsLower s).data [])⟩

/-- Modelled from the spec: getPlayerKey of player-key.js (not under src/)
produces the stable identity string from the type tag and the normalized
name; the legacy roster ids in the source comments have the shape
type-bar-name, which this keeps. -/
def getPlayerKey (ty nm : String) : String :=
  ty ++ "|" ++ normalizeName nm

/-- Player type tag: the code normalizes type to one of the two literal
strings hit and pit. -/
inductive PType where
  | hit
  | pit
  deriving DecidableEq, Repr

/-- String form of a player type tag. -/
def PType.str : PType → String
  | .hit => "hit"
  | .pit => "pit"

/-- Raw persisted roster entry: one JavaScript object as found in the
roster slot.  Each field is the JavaScript value stored under that key
(vundef when the key is absent).  Both lowercase and capitalized name/type
keys are modelled because getRoster reads both. -/
structure RawPlayer where
  id : JSVal
  name : JSVal
  pName : JSVal
  type : JSVal
  pType : JSVal
  team : JSVal
  pos : JSVal
  underContract : JSVal
  contractYear : JSVal
  contractTotal : JSVal
  price : JSVal
  deriving DecidableEq, Repr

/-- Normalized roster entry, the shape produced by normalizeRosterPlayer. -/
structure RosterPlayer where
  id : String
  name : String
  type : PType
  team : String
  pos : String
  underContract : Bool
  contractYear : Int
  contractTotal : Int
  price : Int
  deriving DecidableEq, Repr

/-- Embeds normalizeRosterPlayer from the source: clamps contractTotal to
1..10 (default 1), contractYear to 1..contractTotal (default 1), floors
price at 0 (default 0), keeps type only when exactly hit or pit (default
hit), and coerces id/name/team/pos to strings. -/
def normalizeRosterPlayer (p : RawPlayer) : RosterPlayer :=
  let contractTotal := clampInt (jsNullish p.contractTotal (vnum 1)) 1 10
  let contractYear := clampInt (jsNullish p.contractYear (vnum 1)) 1 contractTotal
  { id := jsToString p.id
    name := jsToString (jsNullish p.name (vstr ""))
    type := if p.type = vstr "pit" then PType.pit else
            if p.type = vstr "hit" then PType.hit else PType.hit
    team := jsToString (jsNullish p.team (vstr ""))
    pos := jsToString (jsNullish p.pos (vstr ""))
    underContract := jsTruthy p.underContract
    contractYear := contractYear
    contractTotal := contractTotal
    price := max 0 (toInt (jsNullish p.price (vnum 0)) 0) }

/-- Re-embedding of a normalized roster entry as the JavaScript object it
is persisted as (exactly the nine keys written by the source). -/
def npToRaw (e : RosterPlayer) : RawPlayer :=
  { id := vstr e.id
    name := vstr e.name
    pName := vundef
    type := vstr e.type.str
    pType := vundef
    team := vstr e.team
    pos := vstr e.pos
    underContract := vbool e.underContract
    contractYear := vnum (e.contractYear : Rat)
    contractTotal := vnum (e.contractTotal : Rat)
    price := vnum (e.price : Rat) }

/-- Canonical key recomputed for one raw roster entry inside the getRoster
loop: normalize the entry, re-read type and trimmed name, resolve. -/
def rawEntryKey (raw : RawPlayer) : String :=
  let n := normalizeRosterPlayer raw
  getPlayerKey n.type.str (jsTrim n.name)

/-- The merged record the getRoster migration builds when a later raw entry
canonicalizes to the id of an earlier one: spread of the earlier normalized
record, then the later one, then the recomputed id/type/name, the OR of the
underContract flags and the contract numerics of whichever record's field
parses finite (the earlier record, being normalized, always does), all
re-normalized.  The spread makes the later record win team and pos. -/
def mergeDup (prev n : RosterPlayer) (nextId nm : String) : RosterPlayer :=
  normalizeRosterPlayer
    { id := vstr nextId
      name := vstr nm
      pName := vundef
      type := vstr n.type.str
      pType := vundef
      team := vstr n.team
      pos := vstr n.pos
      underContract := vbool (prev.underContract || n.underContract)
      contractYear := vnum (prev.contractYear : Rat)
      contractTotal := vnum (prev.contractTotal : Rat)
      price := vnum (prev.price : Rat) }

/-- One iteration of the getRoster migration loop over the insertion-ordered
id map (modelled as a list with unique ids, JavaScript Map semantics:
updating an existing key keeps its position). -/
def migrateStep (m : List RosterPlayer) (raw : RawPlayer) : List RosterPlayer :=
  let n := normalizeRosterPlayer raw
  let nm := jsTrim n.name
  let nextId := getPlayerKey n.type.str nm
  match m.find? (fun x => x.id = nextId) with
  | none => m ++ [{ n with id := nextId, name := nm }]
  | some prev =>
      m.map (fun x => if x.id = nextId then mergeDup prev n nextId nm else x)

/-- Embeds the migration pass of getRoster: normalize each raw entry,
recompute its canonical id and merge duplicates, preserving first-seen
order. -/
def migrateRoster (rs : List RawPlayer) : List RosterPlayer :=
  rs.foldl migrateStep []

/-- Embeds the changed test of getRoster: write back only when the length
changed or some position's id changed (strict equality between the migrated
id string and the raw stored id value). -/
def rosterChanged (rs : List RawPlayer) (migrated : List RosterPlayer) : Bool :=
  (migrated.length != rs.length)
    || (migrated.zip rs).any (fun pr => !(decide (pr.2.id = vstr pr.1.id)))

/-- CSV-derived player record as consumed by addToRosterFromCsv (the four
keys the function reads; absent keys are vundef). -/
structure CsvRecord where
  cName : JSVal
  cType : JSVal
  cTeam : JSVal
  cPos : JSVal
  deriving DecidableEq, Repr

/-- Player type computed by addToRosterFromCsv from a CSV record. -/
def csvType (c : CsvRecord) : PType :=
  if jsLower (jsTrim (jsToString (jsNullish c.cType (vstr "")))) = "pit"
  then PType.pit else PType.hit

/-- Trimmed name string computed by addToRosterFromCsv from a CSV record. -/
def csvName (c : CsvRecord) : String :=
  jsTrim (jsToString (jsNullish c.cName (vstr "")))

/-- Canonical roster id computed by addToRosterFromCsv for a CSV record. -/
def csvId (c : CsvRecord) : String :=
  getPlayerKey (csvType c).str (csvName c)

/-- Trimmed team string computed by addToRosterFromCsv from a CSV record. -/
def csvTeam (c : CsvRecord) : String :=
  jsTrim (jsToString (jsNullish c.cTeam (vstr "")))

/-- Trimmed position string computed by addToRosterFromCsv. -/
def csvPos (c : CsvRecord) : String :=
  jsTrim (jsToString (jsNullish c.cPos (vstr "")))

/-- The record addToRosterFromCsv writes back when an entry with the
record's canonical id already exists: only blank name/team/pos filled. -/
def mergedCsv (ex : RosterPlayer) (c : CsvRecord) : RosterPlayer :=
  { ex with
      name := strOr ex.name (csvName c)
      team := strOr ex.team (csvTeam c)
      pos := strOr ex.pos (csvPos c) }

/-- The record addToRosterFromCsv creates when the canonical id is new:
default contract fields, not under contract, price zero. -/
def createdCsv (c : CsvRecord) : RosterPlayer :=
  { id := csvId c, name := csvName c, type := csvType c, team := csvTeam c
    pos := csvPos c, underContract := false, contractYear := 1
    contractTotal := 1, price := 0 }

/-- Body of addToRosterFromCsv once the self-healed roster is in hand:
either fills only blank name/team/pos/type fields on the existing entry
with the record's canonical id, or prepends a fresh entry with default
contract fields.  Returns the merged or created entry together with the
persisted roster. -/
def addCsvCore (roster : List RosterPlayer) (c : CsvRecord) :
    RosterPlayer × List RosterPlayer :=
  let ty := csvType c
  let nm := csvName c
  let team := csvTeam c
  let pos := csvPos c
  let id := getPlayerKey ty.str nm
  match roster.find? (fun r => r.id = id) with
  | some existing =>
      let merged := normalizeRosterPlayer
        { npToRaw existing with
            name := vstr (strOr existing.name nm)
            team := vstr (strOr existing.team team)
            pos := vstr (strOr existing.pos pos) }
      (merged, roster.map (fun r => if r.id = id then merged else r))
  | none =>
      let created := normalizeRosterPlayer
        { id := vstr id, name := vstr nm, pName := vundef
          type := vstr ty.str, pType := vundef
          team := vstr team, pos := vstr pos
          underContract := vbool false
          contractYear := vnum 1, contractTotal := vnum 1, price := vnum 0 }
      (created, created :: roster)

/-- Embeds addToRosterFromCsv: reads the roster through the getRoster
self-heal, then upserts the CSV record. -/
def addToRosterFromCsv (rs : List RawPlayer) (c : CsvRecord) :
    RosterPlayer × List RosterPlayer :=
  addCsvCore (migrateRoster rs) c

/-- Patch object for updateRosterPlayer: each field is present (with some
JavaScript value) or absent. -/
structure RosterPatch where
  id : Option JSVal := none
  name : Option JSVal := none
  type : Option JSVal := none
  team : Option JSVal := none
  pos : Option JSVal := none
  underContract : Option JSVal := none
  contractYear : Option JSVal := none
  contractTotal : Option JSVal := none
  price : Option JSVal := none
  deriving DecidableEq, Repr

/-- Spread of a patch over a stored roster object (later keys win). -/
def applyRosterPatch (raw : RawPlayer) (q : RosterPatch) : RawPlayer :=
  { id := q.id.getD raw.id
    name := q.name.getD raw.name
    pName := raw.pName
    type := q.type.getD raw.type
    pType := raw.pType
    team := q.team.getD raw.team
    pos := q.pos.getD raw.pos
    underContract := q.underContract.getD raw.underContract
    contractYear := q.contractYear.getD raw.contractYear
    contractTotal := q.contractTotal.getD raw.contractTotal
    price := q.price.getD raw.price }

/-- Embeds updateRosterPlayer: find by id (null result when absent), merge
patch over the record with the id re-pinned after the spread, re-normalize,
persist the updated list. -/
def updateRosterPlayer (roster : List RosterPlayer) (id : String)
    (q : RosterPatch) : Option RosterPlayer × List RosterPlayer :=
  match roster.findIdx? (fun r => r.id = id) with
  | none => (none, roster)
  | some i =>
      match roster.get? i with
      | none => (none, roster)
      | some cur =>
          let updated := normalizeRosterPlayer
            { applyRosterPatch (npToRaw cur) q with id := vstr id }
          (some updated, roster.set i updated)

/-- Category-weights object as persisted: the fourteen canonical keys, the
legacy SBN key, and any further keys (ignored by normalization); absent
keys are vundef. -/
structure WIn where
  wAVG : JSVal := vundef
  wOPS : JSVal := vundef
  wTB : JSVal := vundef
  wHR : JSVal := vundef
  wRBI : JSVal := vundef
  wR : JSVal := vundef
  wSB : JSVal := vundef
  wSBN : JSVal := vundef
  wERA : JSVal := vundef
  wWHIP : JSVal := vundef
  wIP : JSVal := vundef
  wQS : JSVal := vundef
  wK : JSVal := vundef
  wSV : JSVal := vundef
  wHLD : JSVal := vundef
  extra : List (String × JSVal) := []
  deriving DecidableEq, Repr

/-- Normalized category weights: exactly the fourteen canonical keys, each
a finite number. -/
structure Weights where
  wAVG : Rat
  wOPS : Rat
  wTB : Rat
  wHR : Rat
  wRBI : Rat
  wR : Rat
  wSB : Rat
  wERA : Rat
  wWHIP : Rat
  wIP : Rat
  wQS : Rat
  wK : Rat
  wSV : Rat
  wHLD : Rat
  deriving DecidableEq, Repr

/-- Embeds DEFAULT_WEIGHTS: every category weight defaults to 1.0. -/
def DEFAULT_WEIGHTS : Weights :=
  { wAVG := 1, wOPS := 1, wTB := 1, wHR := 1, wRBI := 1, wR := 1, wSB := 1
    wERA := 1, wWHIP := 1, wIP := 1, wQS := 1, wK := 1, wSV := 1, wHLD := 1 }

/-- Embeds migrateWeights: when SB is loosely null (null or undefined) and
SBN is not, move the SBN value to SB and delete SBN. -/
def migrateWeights (w : WIn) : WIn :=
  if (w.wSB = vnull ∨ w.wSB = vundef) ∧ ¬(w.wSBN = vnull ∨ w.wSBN = vundef)
  then { w with wSB := w.wSBN, wSBN := vundef }
  else w

/-- One normalized weight: Number(value) when finite, else the default. -/
def normWeight (v : JSVal) (d : Rat) : Rat :=
  match jsToNumber v with
  | some x => x
  | none => d

/-- Embeds normalizeCategoryWeights: migrate the legacy key on a copy,
then build exactly the fourteen canonical keys, each Number(value) when
finite and the documented default otherwise. -/
def normalizeCategoryWeights (w : WIn) : Weights :=
  let o := migrateWeights w
  { wAVG := normWeight o.wAVG DEFAULT_WEIGHTS.wAVG
    wOPS := normWeight o.wOPS DEFAULT_WEIGHTS.wOPS
    wTB := normWeight o.wTB DEFAULT_WEIGHTS.wTB
    wHR := normWeight o.wHR DEFAULT_WEIGHTS.wHR
    wRBI := normWeight o.wRBI DEFAULT_WEIGHTS.wRBI
    wR := normWeight o.wR DEFAULT_WEIGHTS.wR
    wSB := normWeight o.wSB DEFAULT_WEIGHTS.wSB
    wERA := normWeight o.wERA DEFAULT_WEIGHTS.wERA
    wWHIP := normWeight o.wWHIP DEFAULT_WEIGHTS.wWHIP
    wIP := normWeight o.wIP DEFAULT_WEIGHTS.wIP
    wQS := normWeight o.wQS DEFAULT_WEIGHTS.wQS
    wK := normWeight o.wK DEFAULT_WEIGHTS.wK
    wSV := normWeight o.wSV DEFAULT_WEIGHTS.wSV
    wHLD := normWeight o.wHLD DEFAULT_WEIGHTS.wHLD }

/-- Re-embedding of normalized weights as a persisted weights object. -/
def weightsToIn (w : Weights) : WIn :=
  { wAVG := vnum w.wAVG, wOPS := vnum w.wOPS, wTB := vnum w.wTB
    wHR := vnum w.wHR, wRBI := vnum w.wRBI, wR := vnum w.wR, wSB := vnum w.wSB
    wSBN := vundef
    wERA := vnum w.wERA, wWHIP := vnum w.wWHIP, wIP := vnum w.wIP
    wQS := vnum w.wQS, wK := vnum w.wK, wSV := vnum w.wSV, wHLD := vnum w.wHLD
    extra := [] }

/-- Settings document as loaded from its slot (object-shaped; the field
values are whatever JavaScript values were persisted). -/
structure Settings where
  budget_total : JSVal := vnum 300
  budget_remaining : JSVal := vnum 300
  hitter_slots_total : JSVal := vnum 14
  pitcher_slots_total : JSVal := vnum 9
  category_weights : WIn := weightsToIn DEFAULT_WEIGHTS
  category_weights_updated_at : JSVal := vnull
  value_mode : JSVal := vstr "proj"
  deriving DecidableEq, Repr

/-- Settings document after getSettings has run: identical fields, but the
category weights are re-normalized (self-healing on read). -/
structure SettingsH where
  budget_total : JSVal
  budget_remaining : JSVal
  hitter_slots_total : JSVal
  pitcher_slots_total : JSVal
  category_weights : Weights
  category_weights_updated_at : JSVal
  value_mode : JSVal
  deriving DecidableEq, Repr

/-- Embeds getSettings on a loaded settings object: carry every field and
self-heal the category weights. -/
def getSettingsH (s : Settings) : SettingsH :=
  { budget_total := s.budget_total
    budget_remaining := s.budget_remaining
    hitter_slots_total := s.hitter_slots_total
    pitcher_slots_total := s.pitcher_slots_total
    category_weights := normalizeCategoryWeights s.category_weights
    category_weights_updated_at := s.category_weights_updated_at
    value_mode := s.value_mode }

/-- Embeds setSettings for the shape recalcBudgetRemaining uses: the next
document shallow-merged over the current one (the next document carries
every key, so it wins everywhere) with the weights re-normalized. -/
def setSettingsH (next : SettingsH) : SettingsH :=
  { next with
      category_weights := normalizeCategoryWeights (weightsToIn next.category_weights) }

/-- Auction target as persisted: the explicitly managed keys (absent keys
are vundef); further caller-supplied keys are preserved verbatim in extra. -/
structure Target where
  id : JSVal := vundef
  player_key : JSVal := vundef
  name : JSVal := vundef
  type : JSVal := vundef
  pos : JSVal := vundef
  tier : JSVal := vundef
  plan : JSVal := vundef
  maxBid : JSVal := vundef
  enforce : JSVal := vundef
  notes : JSVal := vundef
  val : JSVal := vundef
  shadow : JSVal := vundef
  adj : JSVal := vundef
  delta : JSVal := vundef
  extra : List (String × JSVal) := []
  deriving DecidableEq, Repr

/-- Keeper contract money: sum of floored prices over under-contract roster
entries, as folded by recalcBudgetRemaining. -/
def contractSpentOf (roster : List RosterPlayer) : Int :=
  roster.foldl
    (fun acc p => acc + (if p.underContract then max 0 (toInt (vnum (p.price : Rat)) 0) else 0))
    0

/-- Keeper key set: canonical keys recomputed from each under-contract
entry's type and name, with falsy (empty) keys filtered out. -/
def keeperKeysOf (roster : List RosterPlayer) : List String :=
  ((roster.filter (fun p => p.underContract)).map
      (fun p => getPlayerKey p.type.str p.name)).filter (fun k => k ≠ "")

/-- Plan amount of one target: the floored, non-negative plan number. -/
def planAmount (t : Target) : Int :=
  max 0 (toInt (jsNullish t.plan (vnum 0)) 0)

/-- Effective join key of one target: String(player_key or empty).trim(). -/
def effKey (t : Target) : String :=
  jsTrim (jsToString (jsOr t.player_key (vstr "")))

/-- Planned auction money: sum of plan over targets, skipping non-positive
plans and targets whose non-empty key is already a keeper key. -/
def plannedSpentOf (keys : List String) (ts : List Target) : Int :=
  ts.foldl
    (fun acc t =>
      if planAmount t ≤ 0 then acc
      else if effKey t ≠ "" ∧ effKey t ∈ keys then acc
      else acc + planAmount t)
    0

/-- Result record returned by recalcBudgetRemaining. -/
structure RecalcResult where
  spent : Int
  remaining : Int
  budgetTotal : Int
  deriving DecidableEq, Repr

/-- Embeds recalcBudgetRemaining: reads settings and the self-healed
roster, sums keeper money, builds the keeper key set, sums planned money
over non-keeper targets, clamps the remaining budget at zero, and persists
budget_remaining back into settings via setSettings.  Returns the result
record and the persisted settings document (the UI notification is
fire-and-forget and does not affect either). -/
def recalcOnRoster (s : Settings) (roster : List RosterPlayer)
    (ts : List Target) : RecalcResult × SettingsH :=
  let settings := getSettingsH s
  let contractSpent := contractSpentOf roster
  let keeperKeys := keeperKeysOf roster
  let plannedSpent := plannedSpentOf keeperKeys ts
  let spent := contractSpent + plannedSpent
  let budgetTotal := max 0 (toInt (jsNullish settings.budget_total (vnum 0)) 0)
  let remaining := max 0 (budgetTotal - spent)
  let nextSettings := { settings with budget_remaining := vnum (remaining : Rat) }
  ({ spent := spent, remaining := remaining, budgetTotal := budgetTotal },
   setSettingsH nextSettings)

/-- Embeds recalcBudgetRemaining on raw slot contents: the roster read goes
through the getRoster self-heal first. -/
def recalcBudgetRemaining (s : Settings) (rs : List RawPlayer)
    (ts : List Target) : RecalcResult × SettingsH :=
  recalcOnRoster s (migrateRoster rs) ts

/-- Caller-supplied argument to addAuctionTarget: every managed key is
present or absent; further keys are preserved in extra. -/
structure TargetIn where
  id : Option JSVal := none
  player_key : Option JSVal := none
  name : Option JSVal := none
  type : Option JSVal := none
  pos : Option JSVal := none
  tier : Option JSVal := none
  plan : Option JSVal := none
  maxBid : Option JSVal := none
  enforce : Option JSVal := none
  notes : Option JSVal := none
  val : Option JSVal := none
  shadow : Option JSVal := none
  adj : Option JSVal := none
  delta : Option JSVal := none
  extra : List (String × JSVal) := []
  deriving DecidableEq, Repr

/-- Field of the caller argument read through optional chaining (absent
keys read as undefined). -/
def TargetIn.fld (v : Option JSVal) : JSVal :=
  v.getD vundef

/-- Embeds the optional valuation-snapshot coercion of addAuctionTarget:
parsed to a number only when present and non-empty, else left undefined. -/
def optNum (v : Option JSVal) : JSVal :=
  let x := TargetIn.fld v
  if x = vnull ∨ x = vundef ∨ x = vstr "" then vundef
  else match jsToNumber x with
       | some r => vnum r
       | none => vnan

/-- Number(value) as a stored JavaScript number (NaN when non-finite). -/
def numJS (v : JSVal) : JSVal :=
  match jsToNumber v with
  | some r => vnum r
  | none => vnan

/-- Embeds addAuctionTarget: generates a fresh id (passed explicitly here,
standing for the random UUID or the timestamp-plus-random fallback), then
builds the created record as the literal spread written in the source: the
generated id first, then every caller-supplied field, then the normalized
core shape.  A caller-supplied id key therefore overrides the generated id.
The created record is prepended to the list and returned. -/
def addAuctionTarget (list : List Target) (t : TargetIn) (gen : String) :
    Target × List Target :=
  let nm := jsTrim (jsToString (jsNullish (TargetIn.fld t.name) (vstr "")))
  let ty := jsLower (jsTrim (jsToString (jsNullish (TargetIn.fld t.type) (vstr "hit"))))
  let created : Target :=
    { id := (t.id.getD (vstr gen))
      player_key := vstr (jsToString (jsOr (TargetIn.fld t.player_key)
                      (jsOr (vstr (getPlayerKey ty nm)) (vstr ""))))
      name := vstr nm
      type := vstr ty
      pos := jsNullish (TargetIn.fld t.pos) (vstr "")
      tier := jsNullish (TargetIn.fld t.tier) (vstr "B")
      plan := numJS (jsNullish (TargetIn.fld t.plan) (vnum 0))
      maxBid := numJS (jsNullish (TargetIn.fld t.maxBid) (vnum 0))
      enforce := numJS (jsNullish (TargetIn.fld t.enforce) (vnum 0))
      notes := jsNullish (TargetIn.fld t.notes) (vstr "")
      val := optNum t.val
      shadow := optNum t.shadow
      adj := optNum t.adj
      delta := optNum t.delta
      extra := t.extra }
  (created, created :: list)

/-- Patch object for updateAuctionTarget: each managed key present or
absent. -/
structure TargetPatch where
  id : Option JSVal := none
  player_key : Option JSVal := none
  name : Option JSVal := none
  type : Option JSVal := none
  pos : Option JSVal := none
  tier : Option JSVal := none
  plan : Option JSVal := none
  maxBid : Option JSVal := none
  enforce : Option JSVal := none
  notes : Option JSVal := none
  val : Option JSVal := none
  shadow : Option JSVal := none
  adj : Option JSVal := none
  delta : Option JSVal := none
  deriving DecidableEq, Repr

/-- Embeds the record update of updateAuctionTarget: spread the patch over
the current target (every present key copied verbatim, including id and
player_key), then re-coerce plan/max/enforce to numbers only when the
patch actually carries them with a non-undefined value. -/
def applyTargetPatch (cur : Target) (q : TargetPatch) : Target :=
  { id := q.id.getD cur.id
    player_key := q.player_key.getD cur.player_key
    name := q.name.getD cur.name
    type := q.type.getD cur.type
    pos := q.pos.getD cur.pos
    tier := q.tier.getD cur.tier
    plan := if TargetIn.fld q.plan ≠ vundef then numJS (TargetIn.fld q.plan) else cur.plan
    maxBid := if TargetIn.fld q.maxBid ≠ vundef then numJS (TargetIn.fld q.maxBid) else cur.maxBid
    enforce := if TargetIn.fld q.enforce ≠ vundef then numJS (TargetIn.fld q.enforce) else cur.enforce
    notes := q.notes.getD cur.notes
    val := q.val.getD cur.val
    shadow := q.shadow.getD cur.shadow
    adj := q.adj.getD cur.adj
    delta := q.delta.getD cur.delta
    extra := cur.extra }

/-- Strict equality on embedded JavaScript values (NaN compares unequal to
everything, including itself). -/
def jsStrictEq (a b : JSVal) : Bool :=
  match a, b with
  | vnan, _ => false
  | _, vnan => false
  | x, y => x = y

/-- Embeds updateAuctionTarget: no-op when the id is not found, otherwise
replace the first matching target with the patched record. -/
def updateAuctionTarget (list : List Target) (id : JSVal)
    (q : TargetPatch) : List Target :=
  match list.findIdx? (fun t => jsStrictEq t.id id) with
  | none => list
  | some i =>
      match list.get? i with
      | none => list
      | some cur => list.set i (applyTargetPatch cur q)

/-- One element of a persisted roster array as JSON allows it: either an
object (modelled by its relevant keys) or a bare JSON value. -/
inductive RawEntry where
  | obj (p : RawPlayer)
  | prim (v : JSVal)
  deriving DecidableEq, Repr

/-- Possible contents of the roster storage slot: malformed JSON (load
returns the fallback), well-formed JSON that is not an array, or an array
of entries. -/
inductive RosterSlot where
  | corrupt
  | notArray (v : JSVal)
  | arr (items : List RawEntry)
  deriving DecidableEq, Repr

/-- What getRoster evaluates to when it does return: the migrated list, or
the loaded non-array value passed through unchanged. -/
inductive RosterOut where
  | list (l : List RosterPlayer)
  | raw (v : JSVal)
  deriving DecidableEq, Repr

/-- A raw roster entry with no usable keys (every property access on a
non-null primitive yields undefined). -/
def rawAllUndef : RawPlayer :=
  { id := vundef, name := vundef, pName := vundef, type := vundef
    pType := vundef, team := vundef, pos := vundef, underContract := vundef
    contractYear := vundef, contractTotal := vundef, price := vundef }

/-- Property access performed by normalizeRosterPlayer on one array
element: object keys read normally, non-null primitives read as undefined,
and null or undefined elements raise a TypeError. -/
def readRawEntry : RawEntry → Except String RawPlayer
  | .obj p => .ok p
  | .prim vnull => .error "TypeError: cannot read properties of null"
  | .prim vundef => .error "TypeError: cannot read properties of undefined"
  | .prim _ => .ok rawAllUndef

/-- Embeds getRoster over arbitrary slot contents, tracking the exception
behavior: corrupt JSON falls back to the empty list, a non-array value is
returned as-is without migration, and an array is migrated entry by entry
(a null or undefined entry makes normalizeRosterPlayer throw). -/
def getRosterDyn (slot : RosterSlot) : Except String RosterOut :=
  match slot with
  | .corrupt => .ok (.list [])
  | .notArray v => .ok (.raw v)
  | .arr items =>
      if items.isEmpty then .ok (.list [])
      else do
        let ps ← items.mapM readRawEntry
        pure (.list (migrateRoster ps))

/-- Embeds recalcBudgetRemaining over arbitrary roster-slot contents: when
getRoster hands back a non-array value, the reduce call on it throws. -/
def recalcDyn (s : Settings) (slot : RosterSlot) (ts : List Target) :
    Except String (RecalcResult × SettingsH) := do
  match ← getRosterDyn slot with
  | .raw _ => .error "TypeError: roster.reduce is not a function"
  | .list roster => pure (recalcOnRoster s roster ts)

/-- The default settings document getSettings supplies when the slot is
absent or corrupt. -/
def defaultSettings : Settings := {}

/-- Spec-side reading of the claimed SB weight, following the claim's
words: Number(input.SB) when that is finite, the default otherwise, with
the legacy SBN value used only when the SB key was absent from the input. -/
def claimedWeightSB (w : WIn) : Rat :=
  if w.wSB = vundef then normWeight w.wSBN DEFAULT_WEIGHTS.wSB
  else normWeight w.wSB DEFAULT_WEIGHTS.wSB

/-- Numeric invariant normalizeRosterPlayer establishes on contract fields. -/
def contractOk (e : RosterPlayer) : Prop :=
  1 ≤ e.contractYear ∧ e.contractYear ≤ e.contractTotal ∧
    e.contractTotal ≤ 10 ∧ 0 ≤ e.price

/-- Full invariant of entries produced by the getRoster migration: contract
bounds, a trimmed name, and an id that is the canonical key of the entry's
own type and name. -/
def entryOk (e : RosterPlayer) : Prop :=
  contractOk e ∧ jsTrim e.name = e.name ∧ e.id = getPlayerKey e.type.str e.name

/-- Well-formedness of the insertion-ordered id map the migration folds
over: every entry satisfies the entry invariant and ids are unique. -/
def stateOk (m : List RosterPlayer) : Prop :=
  (∀ e ∈ m, entryOk e) ∧ (m.map RosterPlayer.id).Nodup

/-- Error test on an embedded fallible evaluation. -/
def isErr {α : Type} : Except String α → Bool
  | .error _ => true
  | .ok _ => false

/-- First raw roster entry of the duplicate-merge counterexample: team NYY,
position OF, non-numeric price. -/
def rawDupA : RawPlayer :=
  { id := vstr "hit|A", name := vstr "A", pName := vundef, type := vstr "hit"
    pType := vundef, team := vstr "NYY", pos := vstr "OF"
    underContract := vbool false, contractYear := vundef
    contractTotal := vundef, price := vstr "abc" }

/-- Second raw roster entry of the duplicate-merge counterexample: same
canonical identity, team BOS, position 1B, numeric price 20. -/
def rawDupB : RawPlayer :=
  { id := vstr "x", name := vstr "A", pName := vundef, type := vstr "hit"
    pType := vundef, team := vstr "BOS", pos := vstr "1B"
    underContract := vbool true, contractYear := vundef
    contractTotal := vundef, price := vnum 20 }

/-- Under-contract keeper with price 50 (canonical key hit-bar-a). -/
def rawKeeperA : RawPlayer :=
  { id := vstr "hit|A", name := vstr "A", pName := vundef, type := vstr "hit"
    pType := vundef, team := vundef, pos := vundef
    underContract := vbool true, contractYear := vundef
    contractTotal := vundef, price := vnum 50 }

/-- Auction target for the same player with a planning amount of 20. -/
def targetKeeperA : Target :=
  { plan := vnum 20, player_key := vstr "hit|a" }

/-- Weights object with the SB key present as null and a legacy SBN value. -/
def wSbNull : WIn :=
  { wSB := vnull, wSBN := vnum 3 }

/-- Stored auction target used to exercise updateAuctionTarget. -/
def tgtCur : Target :=
  { id := vstr "t1", player_key := vstr "hit|a", name := vstr "A"
    plan := vnum 7 }

/-- Patch carrying an id and a player_key, to show both are replaced. -/
def tgtPatch : TargetPatch :=
  { id := some (vstr "evil"), player_key := some (vstr "pit|z")
    plan := some (vstr "9") }

/-- Normalized roster entry used to exercise updateRosterPlayer. -/
def eW : RosterPlayer :=
  { id := "hit|a", name := "a", type := PType.hit, team := "", pos := ""
    underContract := false, contractYear := 1, contractTotal := 1, price := 0 }

/-- Roster patch that tries to overwrite the id. -/
def rpatchEvil : RosterPatch :=
  { id := some (vstr "evil") }

lemma dropWhile_eq_self_of_prefix {α : Type} {p : α → Bool} {l₁ l₂ : List α}
    (hp : l₁ <+: l₂) (h : l₂.dropWhile p = l₂) : l₁.dropWhile p = l₁ := by
  rw [List.dropWhile_eq_self_iff] at h ⊢
  intro hl
  have hlen : 0 < l₂.length := lt_of_lt_of_le hl hp.length_le
  have h2 := h hlen
  simp only [List.get_eq_getElem] at h2 ⊢
  rw [hp.getElem hl]
  exact h2

lemma jsTrim_idem (s : String) : jsTrim (jsTrim s) = jsTrim s := by
  simp only [jsTrim]
  congr 1
  have h1 : (((s.data.dropWhile (fun c => c.isWhitespace)).rdropWhile
        (fun c => c.isWhitespace)).dropWhile (fun c => c.isWhitespace))
      = (s.data.dropWhile (fun c => c.isWhitespace)).rdropWhile
        (fun c => c.isWhitespace) :=
    dropWhile_eq_self_of_prefix (List.rdropWhile_prefix _ _)
      (List.dropWhile_idempotent _ _)
  rw [h1, List.rdropWhile_idempotent]

lemma toInt_intCast (n : Int) (f : Int) : toInt (vnum (n : Rat)) f = n := by
  simp [toInt, jsToNumber, jsTrunc]

lemma normalizeRosterPlayer_contractOk (p : RawPlayer) :
    contractOk (normalizeRosterPlayer p) := by
  simp only [contractOk, normalizeRosterPlayer, clampInt]
  omega

lemma normalizeRosterPlayer_type (p : RawPlayer) :
    (normalizeRosterPlayer p).type
      = (if p.type = vstr "pit" then PType.pit else PType.hit) := by
  simp only [normalizeRosterPlayer]
  by_cases h : p.type = vstr "pit" <;> simp [h]

lemma normalize_npToRaw {e : RosterPlayer} (h : contractOk e) :
    normalizeRosterPlayer (npToRaw e) = e := by
  cases e with
  | mk id nm ty team pos uc cy ct price =>
    simp only [contractOk] at h
    obtain ⟨h1, h2, h3, h4⟩ := h
    cases ty <;>
      simp only [normalizeRosterPlayer, npToRaw, jsNullish, jsToString,
        jsTruthy, clampInt, PType.str, RosterPlayer.mk.injEq, vstr.injEq,
        reduceCtorEq, or_self, if_false, if_true, toInt_intCast,
        String.reduceEq, ite_false, ite_true, and_true, true_and] <;>
      and_intros <;> first | rfl | omega

lemma mergeDup_eq {prev : RosterPlayer} (h : contractOk prev)
    (n : RosterPlayer) (nextId nm : String) :
    mergeDup prev n nextId nm =
      { id := nextId, name := nm, type := n.type, team := n.team, pos := n.pos
        underContract := prev.underContract || n.underContract
        contractYear := prev.contractYear
        contractTotal := prev.contractTotal
        price := prev.price } := by
  obtain ⟨h1, h2, h3, h4⟩ := h
  cases hn : n.type <;>
    simp only [hn, mergeDup, normalizeRosterPlayer, jsNullish, jsToString,
      jsTruthy, clampInt, PType.str, RosterPlayer.mk.injEq, vstr.injEq,
      reduceCtorEq, or_self, if_false, if_true, toInt, jsToNumber, jsTrunc,
      Rat.num_intCast, Rat.den_intCast, Int.tdiv_one, Nat.cast_one,
      String.reduceEq, ite_false, ite_true, and_true, true_and] <;>
    and_intros <;> first | rfl | (exact hn.symm) | omega

lemma mergeDup_entryOk {prev n : RosterPlayer} (hp : contractOk prev)
    (nm : String) (hnm : jsTrim nm = nm) :
    entryOk (mergeDup prev n (getPlayerKey n.type.str nm) nm) := by
  rw [mergeDup_eq hp]
  exact ⟨⟨hp.1, hp.2.1, hp.2.2.1, hp.2.2.2⟩, hnm, rfl⟩

lemma migrateStep_stateOk {m : List RosterPlayer} (h : stateOk m)
    (raw : RawPlayer) : stateOk (migrateStep m raw) := by
  obtain ⟨hInv, hN⟩ := h
  have hC := normalizeRosterPlayer_contractOk raw
  simp only [migrateStep]
  split
  case h_1 hfind =>
    rw [List.find?_eq_none] at hfind
    constructor
    · intro e he
      rcases List.mem_append.mp he with hm | hs
      · exact hInv e hm
      · rcases List.mem_singleton.mp hs with rfl
        refine ⟨⟨hC.1, hC.2.1, hC.2.2.1, hC.2.2.2⟩, jsTrim_idem _, rfl⟩
    · rw [List.map_append, List.nodup_append]
      refine ⟨hN, List.nodup_singleton _, ?_⟩
      intro a ha
      simp only [List.map_singleton, List.mem_singleton]
      intro hEq
      rcases List.mem_map.mp ha with ⟨x, hx, rfl⟩
      exact absurd (by simpa using hfind x hx) (by simp [hEq])
  case h_2 prev hfind =>
    have hmem := List.mem_of_find?_eq_some hfind
    have hpid : prev.id = getPlayerKey
        (normalizeRosterPlayer raw).type.str
        (jsTrim (normalizeRosterPlayer raw).name) := by
      have := List.find?_some hfind
      simpa using this
    have hpOk := hInv prev hmem
    constructor
    · intro e he
      rcases List.mem_map.mp he with ⟨x, hx, rfl⟩
      by_cases hxid : x.id = getPlayerKey
          (normalizeRosterPlayer raw).type.str
          (jsTrim (normalizeRosterPlayer raw).name)
      · rw [if_pos hxid]
        exact @mergeDup_entryOk prev (normalizeRosterPlayer raw)
          hpOk.1 _ (jsTrim_idem _)
      · rw [if_neg hxid]
        exact hInv x hx
    · have hmap : (m.map (fun x =>
          if x.id = getPlayerKey (normalizeRosterPlayer raw).type.str
              (jsTrim (normalizeRosterPlayer raw).name)
          then mergeDup prev (normalizeRosterPlayer raw)
              (getPlayerKey (normalizeRosterPlayer raw).type.str
                (jsTrim (normalizeRosterPlayer raw).name))
              (jsTrim (normalizeRosterPlayer raw).name)
          else x)).map RosterPlayer.id = m.map RosterPlayer.id := by
        rw [List.map_map]
        apply List.map_congr_left
        intro x hx
        by_cases hxid : x.id = getPlayerKey
            (normalizeRosterPlayer raw).type.str
            (jsTrim (normalizeRosterPlayer raw).name)
        · simp only [Function.comp_apply]
          rw [if_pos hxid, mergeDup_eq hpOk.1]
          exact hxid.symm
        · simp only [Function.comp_apply]
          rw [if_neg hxid]
      rw [hmap]
      exact hN

lemma migrateRoster_stateOk (rs : List RawPlayer) :
    stateOk (migrateRoster rs) := by
  have main : ∀ (l : List RawPlayer) (m : List RosterPlayer), stateOk m →
      stateOk (List.foldl migrateStep m l) := by
    intro l
    induction l with
    | nil => intro m hm; simpa using hm
    | cons a t ih =>
        intro m hm
        rw [List.foldl_cons]
        exact ih _ (migrateStep_stateOk hm a)
  exact main rs [] ⟨fun e he => absurd he (List.not_mem_nil e), List.nodup_nil⟩

lemma migrateStep_fresh {m : List RosterPlayer} {e : RosterPlayer}
    (hOk : entryOk e) (hNew : ∀ x ∈ m, x.id ≠ e.id) :
    migrateStep m (npToRaw e) = m ++ [e] := by
  obtain ⟨hC, hT, hI⟩ := hOk
  have hn : normalizeRosterPlayer (npToRaw e) = e := normalize_npToRaw hC
  simp only [migrateStep, hn, hT, ← hI]
  have hfind : m.find? (fun x => x.id = e.id) = none := by
    rw [List.find?_eq_none]
    intro x hx
    simpa using hNew x hx
  rw [hfind]

lemma foldl_migrateStep_fresh :
    ∀ (l m : List RosterPlayer), (∀ e ∈ l, entryOk e) →
      (∀ e ∈ l, ∀ x ∈ m, x.id ≠ e.id) →
      (l.map RosterPlayer.id).Nodup →
      List.foldl migrateStep m (l.map npToRaw) = m ++ l := by
  intro l
  induction l with
  | nil => intro m _ _ _; simp
  | cons e rest ih =>
      intro m hInv hNew hN
      rw [List.map_cons, List.nodup_cons] at hN
      have hstep : migrateStep m (npToRaw e) = m ++ [e] :=
        migrateStep_fresh (hInv e (List.mem_cons_self e rest))
          (hNew e (List.mem_cons_self e rest))
      have hrec := ih (m ++ [e])
        (fun x hx => hInv x (List.mem_cons_of_mem e hx))
        (by
          intro x hx y hy
          rcases List.mem_append.mp hy with hm | hs
          · exact hNew x (List.mem_cons_of_mem e hx) y hm
          · rcases List.mem_singleton.mp hs with rfl
            intro hEq
            exact hN.1 (by rw [hEq]; exact List.mem_map.mpr ⟨x, hx, rfl⟩))
        hN.2
      rw [List.map_cons, List.foldl_cons, hstep, hrec,
        List.append_assoc, List.singleton_append]

lemma migrate_self {l : List RosterPlayer} (h : stateOk l) :
    migrateRoster (l.map npToRaw) = l := by
  have := foldl_migrateStep_fresh l [] h.1 (by intro e _ x hx; cases hx) h.2
  simpa [migrateRoster] using this

lemma getPlayerKey_inj_parts {t1 t2 : PType} {n1 n2 : String}
    (h : getPlayerKey t1.str n1 = getPlayerKey t2.str n2) :
    t1 = t2 ∧ normalizeName n1 = normalizeName n2 := by
  have hd := congrArg String.data h
  have happ : ∀ (a b : String), (a ++ b).data = a.data ++ b.data := by
    intro a b; cases a; cases b; rfl
  cases t1 <;> cases t2 <;>
    simp only [getPlayerKey, PType.str, happ] at hd <;>
    first
      | exact ⟨rfl, String.ext (by simpa using hd)⟩
      | (exfalso; simp [String.data] at hd)

lemma strOr_trim {a b : String} (ha : jsTrim a = a) (hb : jsTrim b = b) :
    jsTrim (strOr a b) = strOr a b := by
  unfold strOr; split <;> assumption

lemma strOr_absorb (a b : String) : strOr (strOr a b) b = strOr a b := by
  unfold strOr
  by_cases h : a = "" <;> simp [h]

lemma strOr_self (a : String) : strOr a a = a := by
  unfold strOr; split <;> rfl

lemma normalize_npToRaw_override {e : RosterPlayer} (h : contractOk e)
    (n1 t1 p1 : String) :
    normalizeRosterPlayer
        { npToRaw e with name := vstr n1, team := vstr t1, pos := vstr p1 }
      = { e with name := n1, team := t1, pos := p1 } := by
  cases e with
  | mk id nm ty team pos uc cy ct price =>
    simp only [contractOk] at h
    obtain ⟨h1, h2, h3, h4⟩ := h
    cases ty <;>
      simp only [normalizeRosterPlayer, npToRaw, jsNullish, jsToString,
        jsTruthy, clampInt, PType.str, RosterPlayer.mk.injEq, vstr.injEq,
        reduceCtorEq, or_self, if_false, if_true, toInt_intCast,
        String.reduceEq, ite_false, ite_true, and_true, true_and] <;>
      and_intros <;> first | rfl | omega

lemma normalize_createdCsv (c : CsvRecord) :
    normalizeRosterPlayer
        { id := vstr (csvId c), name := vstr (csvName c), pName := vundef
          type := vstr (csvType c).str, pType := vundef
          team := vstr (csvTeam c), pos := vstr (csvPos c)
          underContract := vbool false
          contractYear := vnum 1, contractTotal := vnum 1, price := vnum 0 }
      = createdCsv c := by
  cases hty : csvType c <;>
    simp only [createdCsv, hty, normalizeRosterPlayer, jsNullish, jsToString,
      jsTruthy, clampInt, PType.str, RosterPlayer.mk.injEq, vstr.injEq,
      reduceCtorEq, or_self, if_false, if_true,
      String.reduceEq, ite_false, ite_true, and_true, true_and] <;>
    and_intros <;> rfl

lemma replace_preserve_ids {l : List RosterPlayer} {key : String}
    {v : RosterPlayer} (hv : v.id = key) :
    (l.map (fun r => if r.id = key then v else r)).map RosterPlayer.id
      = l.map RosterPlayer.id := by
  rw [List.map_map]
  apply List.map_congr_left
  intro x hx
  simp only [Function.comp_apply]
  by_cases h : x.id = key
  · rw [if_pos h, hv, h]
  · rw [if_neg h]

lemma replace_self {l : List RosterPlayer} {key : String} {v : RosterPlayer}
    (h : ∀ x ∈ l, x.id = key → x = v) :
    l.map (fun r => if r.id = key then v else r) = l := by
  conv_rhs => rw [← List.map_id l]
  apply List.map_congr_left
  intro x hx
  by_cases hx2 : x.id = key
  · rw [if_pos hx2, ← h x hx hx2]; rfl
  · rw [if_neg hx2]; rfl

lemma find?_replace {l : List RosterPlayer} {key : String} {v : RosterPlayer}
    (hv : v.id = key) (hex : ∃ x ∈ l, x.id = key) :
    (l.map (fun r => if r.id = key then v else r)).find?
        (fun r => r.id = key) = some v := by
  induction l with
  | nil => rcases hex with ⟨x, hx, _⟩; cases hx
  | cons a t ih =>
      rw [List.map_cons]
      by_cases ha : a.id = key
      · rw [if_pos ha]
        exact List.find?_cons_of_pos _ (by simp [hv])
      · rw [if_neg ha, List.find?_cons_of_neg _ (by simp [ha])]
        apply ih
        rcases hex with ⟨x, hx, hxid⟩
        rcases List.mem_cons.mp hx with rfl | hxt
        · exact absurd hxid ha
        · exact ⟨x, hxt, hxid⟩

lemma filter_id_length_one {l : List RosterPlayer} {key : String}
    (hN : (l.map RosterPlayer.id).Nodup) (hex : ∃ x ∈ l, x.id = key) :
    (l.filter (fun e => e.id = key)).length = 1 := by
  induction l with
  | nil => rcases hex with ⟨x, hx, _⟩; cases hx
  | cons a t ih =>
      rw [List.map_cons, List.nodup_cons] at hN
      by_cases ha : a.id = key
      · rw [List.filter_cons_of_pos (by simp [ha])]
        have ht : t.filter (fun e => e.id = key) = [] := by
          rw [List.filter_eq_nil_iff]
          intro x hx
          simp only [decide_eq_true_eq]
          intro hxid
          exact hN.1 (ha ▸ hxid ▸ List.mem_map.mpr ⟨x, hx, rfl⟩)
        simp [ht]
      · rw [List.filter_cons_of_neg (by simp [ha])]
        apply ih hN.2
        rcases hex with ⟨x, hx, hxid⟩
        rcases List.mem_cons.mp hx with rfl | hxt
        · exact absurd hxid ha
        · exact ⟨x, hxt, hxid⟩

lemma addCsvCore_new {roster : List RosterPlayer} {c : CsvRecord}
    (hfind : roster.find? (fun r => r.id = csvId c) = none) :
    addCsvCore roster c = (createdCsv c, createdCsv c :: roster) := by
  simp only [addCsvCore]
  rw [show getPlayerKey (csvType c).str (csvName c) = csvId c from rfl]
  simp only [hfind]
  rw [normalize_createdCsv]

lemma addCsvCore_found {roster : List RosterPlayer} {c : CsvRecord}
    {ex : RosterPlayer}
    (hfind : roster.find? (fun r => r.id = csvId c) = some ex)
    (hc : contractOk ex) :
    addCsvCore roster c
      = (mergedCsv ex c,
         roster.map (fun r => if r.id = csvId c then mergedCsv ex c else r)) := by
  simp only [addCsvCore]
  rw [show getPlayerKey (csvType c).str (csvName c) = csvId c from rfl]
  simp only [hfind]
  rw [normalize_npToRaw_override hc]
  rfl

lemma createdCsv_entryOk (c : CsvRecord) : entryOk (createdCsv c) :=
  ⟨⟨le_refl 1, le_refl 1, by show (1 : Int) ≤ 10; norm_num, le_refl 0⟩,
   jsTrim_idem _, rfl⟩

lemma mergedCsv_entryOk {ex : RosterPlayer} {c : CsvRecord}
    (hOk : entryOk ex) (hid : ex.id = csvId c) :
    entryOk (mergedCsv ex c) := by
  obtain ⟨hc, ht, hi⟩ := hOk
  refine ⟨⟨hc.1, hc.2.1, hc.2.2.1, hc.2.2.2⟩,
    strOr_trim ht (jsTrim_idem _), ?_⟩
  show ex.id = getPlayerKey ex.type.str (strOr ex.name (csvName c))
  unfold strOr
  by_cases hn : ex.name = ""
  · rw [if_neg (not_not_intro hn)]
    have hparts := @getPlayerKey_inj_parts ex.type (csvType c)
        ex.name (csvName c) (by rw [← hi, hid, csvId])
    rw [hid, csvId, getPlayerKey, getPlayerKey, hparts.1]
  · rw [if_pos hn]
    exact hi

lemma mergedCsv_createdCsv (c : CsvRecord) :
    mergedCsv (createdCsv c) c = createdCsv c := by
  simp only [mergedCsv, createdCsv, strOr_self]

lemma mergedCsv_idem (ex : RosterPlayer) (c : CsvRecord) :
    mergedCsv (mergedCsv ex c) c = mergedCsv ex c := by
  simp only [mergedCsv, strOr_absorb]

/-- C5: running the getRoster self-heal a second time, on the stored
output of the first run, returns an identical list, and the changed test
comes out false, so no second write happens (idempotent migration). -/
theorem getRoster_selfheal_idempotent (rs : List RawPlayer) :
    migrateRoster ((migrateRoster rs).map npToRaw) = migrateRoster rs
    ∧ rosterChanged ((migrateRoster rs).map npToRaw)
        (migrateRoster ((migrateRoster rs).map npToRaw)) = false := by
  have hfix := migrate_self (migrateRoster_stateOk rs)
  refine ⟨hfix, ?_⟩
  rw [hfix]
  simp only [rosterChanged, List.length_map, bne_self_eq_false, Bool.false_or]
  have hzip : ∀ (l : List RosterPlayer),
      (l.zip (l.map npToRaw)).any
        (fun pr => !(decide (pr.2.id = vstr pr.1.id))) = false := by
    intro l
    induction l with
    | nil => rfl
    | cons a t iht => simp [npToRaw, iht]
  exact hzip _

/-- C7: for every input record, the normalized roster player satisfies
1 ≤ contractYear ≤ contractTotal ≤ 10 and 0 ≤ price, and its type is pit
exactly when the input type is exactly the string pit, else hit. -/
theorem normalizeRosterPlayer_invariants (p : RawPlayer) :
    1 ≤ (normalizeRosterPlayer p).contractYear
    ∧ (normalizeRosterPlayer p).contractYear
        ≤ (normalizeRosterPlayer p).contractTotal
    ∧ (normalizeRosterPlayer p).contractTotal ≤ 10
    ∧ 0 ≤ (normalizeRosterPlayer p).price
    ∧ (normalizeRosterPlayer p).type
        = (if p.type = vstr "pit" then PType.pit else PType.hit) :=
  ⟨(normalizeRosterPlayer_contractOk p).1,
   (normalizeRosterPlayer_contractOk p).2.1,
   (normalizeRosterPlayer_contractOk p).2.2.1,
   (normalizeRosterPlayer_contractOk p).2.2.2,
   normalizeRosterPlayer_type p⟩

/-- C2: recalcBudgetRemaining returns remaining = max(0, budgetTotal minus
spent), never negative, and the settings document it persists carries
exactly the returned remaining as budget_remaining. -/
theorem recalc_remaining_clamped (s : Settings) (rs : List RawPlayer)
    (ts : List Target) :
    (recalcBudgetRemaining s rs ts).1.remaining
        = max 0 ((recalcBudgetRemaining s rs ts).1.budgetTotal
            - (recalcBudgetRemaining s rs ts).1.spent)
    ∧ 0 ≤ (recalcBudgetRemaining s rs ts).1.remaining
    ∧ (recalcBudgetRemaining s rs ts).2.budget_remaining
        = vnum (((recalcBudgetRemaining s rs ts).1.remaining : Int) : Rat) :=
  ⟨rfl, le_max_left 0 _, rfl⟩

/-- C9 is refuted: addAuctionTarget spreads the caller object after the
generated id, so a caller-supplied id key overwrites the fresh id. -/
theorem addAuctionTarget_caller_id_wins :
    ((addAuctionTarget [] { id := some (vstr "boom") } "fresh-uuid").1).id
        = vstr "boom"
    ∧ vstr "boom" ≠ vstr "fresh-uuid" :=
  ⟨rfl, by decide⟩

/-- C9 amended: the created, persisted and returned record carries the
freshly generated id exactly when the caller supplied no id key; a
caller-supplied id value replaces it verbatim. -/
theorem addAuctionTarget_id_policy (l : List Target) (t : TargetIn)
    (gen : String) :
    (addAuctionTarget l t gen).1.id = t.id.getD (vstr gen)
    ∧ (addAuctionTarget l t gen).2 = (addAuctionTarget l t gen).1 :: l :=
  ⟨rfl, rfl⟩

/-- C6 is refuted at an SB key stored as null: the migration treats null
like an absent SB (JavaScript loose equality with null) and moves the SBN
value in, while the claim's formula demands Number(null) = 0, which is
finite, to be kept. -/
theorem normalizeCategoryWeights_sb_null_cex :
    (normalizeCategoryWeights wSbNull).wSB = 3
    ∧ claimedWeightSB wSbNull = 0
    ∧ (3 : Rat) ≠ 0 := by
  refine ⟨by decide, by decide, by norm_num⟩

/-- C6 amended: normalizeCategoryWeights yields exactly the fourteen
canonical keys, each Number(input value) when finite and the default 1
otherwise, the legacy SBN value being used for SB when SB is absent or
null (not only when absent) and SBN is not; extra keys are ignored. -/
theorem normalizeCategoryWeights_field_spec (w : WIn)
    (e : List (String × JSVal)) :
    (normalizeCategoryWeights w).wAVG = normWeight w.wAVG 1
    ∧ (normalizeCategoryWeights w).wOPS = normWeight w.wOPS 1
    ∧ (normalizeCategoryWeights w).wTB = normWeight w.wTB 1
    ∧ (normalizeCategoryWeights w).wHR = normWeight w.wHR 1
    ∧ (normalizeCategoryWeights w).wRBI = normWeight w.wRBI 1
    ∧ (normalizeCategoryWeights w).wR = normWeight w.wR 1
    ∧ (normalizeCategoryWeights w).wERA = normWeight w.wERA 1
    ∧ (normalizeCategoryWeights w).wWHIP = normWeight w.wWHIP 1
    ∧ (normalizeCategoryWeights w).wIP = normWeight w.wIP 1
    ∧ (normalizeCategoryWeights w).wQS = normWeight w.wQS 1
    ∧ (normalizeCategoryWeights w).wK = normWeight w.wK 1
    ∧ (normalizeCategoryWeights w).wSV = normWeight w.wSV 1
    ∧ (normalizeCategoryWeights w).wHLD = normWeight w.wHLD 1
    ∧ (normalizeCategoryWeights w).wSB
        = (if (w.wSB = vnull ∨ w.wSB = vundef)
              ∧ ¬(w.wSBN = vnull ∨ w.wSBN = vundef)
           then normWeight w.wSBN 1 else normWeight w.wSB 1)
    ∧ normalizeCategoryWeights { w with extra := e }
        = normalizeCategoryWeights w := by
  simp only [normalizeCategoryWeights, migrateWeights]
  split_ifs with h <;> simp [DEFAULT_WEIGHTS]

/-- C3 fails on the code: the roster slot holding a JSON array with a
single null element makes getRoster throw a TypeError while normalizing
the entry, and a valid-JSON non-array roster value makes
recalcBudgetRemaining throw when it calls reduce on what getRoster hands
back; genuinely unparseable slot content, by contrast, falls back safely. -/
theorem storage_malformed_throws :
    isErr (getRosterDyn (RosterSlot.arr [RawEntry.prim vnull])) = true
    ∧ isErr (recalcDyn defaultSettings (RosterSlot.notArray (vnum 5)) []) = true
    ∧ isErr (getRosterDyn RosterSlot.corrupt) = false :=
  ⟨rfl, rfl, rfl⟩

/-- C1: plannedSpent counts exactly the targets with positive plan whose
effective player key is not among the keeper keys, and in the concrete
scenario of an under-contract keeper at price 50 who is also a target with
plan 20 under the same canonical key, the player contributes exactly 50 to
spent (remaining 250 of 300), not 70. -/
theorem recalc_no_double_count :
    (∀ (roster : List RosterPlayer) (ts : List Target),
        plannedSpentOf (keeperKeysOf roster) ts
          = ((ts.filter (fun t => decide (0 < planAmount t)
                && !(decide (effKey t ∈ keeperKeysOf roster)))).map
              planAmount).sum)
    ∧ (recalcBudgetRemaining defaultSettings [rawKeeperA] [targetKeeperA]).1.spent
        = 50
    ∧ (recalcBudgetRemaining defaultSettings [rawKeeperA]
        [targetKeeperA]).1.remaining = 250 := by
  refine ⟨?_, by decide, by decide⟩
  intro roster ts
  have hkeys : "" ∉ keeperKeysOf roster := by
    intro hmem
    have := (List.mem_filter.mp hmem).2
    simp at this
  have main : ∀ (l : List Target) (acc : Int),
      l.foldl (fun acc t =>
        if planAmount t ≤ 0 then acc
        else if effKey t ≠ "" ∧ effKey t ∈ keeperKeysOf roster then acc
        else acc + planAmount t) acc
      = acc + ((l.filter (fun t => decide (0 < planAmount t)
            && !(decide (effKey t ∈ keeperKeysOf roster)))).map
          planAmount).sum := by
    intro l
    induction l with
    | nil => intro acc; simp
    | cons t l ih =>
        intro acc
        rw [List.foldl_cons]
        by_cases h1 : planAmount t ≤ 0
        · rw [List.filter_cons_of_neg (by simp; omega)]
          rw [if_pos h1]
          exact ih acc
        · by_cases h2 : effKey t ∈ keeperKeysOf roster
          · have hne : effKey t ≠ "" := fun hEq => hkeys (hEq ▸ h2)
            rw [List.filter_cons_of_neg (by simp [h2])]
            rw [if_neg h1, if_pos (And.intro hne h2)]
            exact ih acc
          · rw [List.filter_cons_of_pos (by simp [h2]; omega)]
            rw [if_neg h1, if_neg (fun hc => h2 hc.2)]
            rw [List.map_cons, List.sum_cons, ih (acc + planAmount t)]
            ring
  have := main ts 0
  simpa [plannedSpentOf] using this

/-- C4 is refuted: merging two raw entries with the same canonical
identity keeps the later entry's team and position (the object spread puts
the later record after the earlier one), and the price comes from the
earlier normalized record even when that record's stored price did not
parse to a finite number (it normalized to 0, which is finite), so the
later record's parseable price 20 is discarded. -/
theorem getRoster_merge_cex :
    migrateRoster [rawDupA, rawDupB]
      = [{ id := "hit|a", name := "A", type := PType.hit, team := "BOS", pos := "1B"
           underContract := true, contractYear := 1, contractTotal := 1, price := 0 }]
    ∧ (normalizeRosterPlayer rawDupA).team = "NYY"
    ∧ (normalizeRosterPlayer rawDupA).pos = "OF"
    ∧ jsToNumber rawDupA.price = none
    ∧ jsToNumber rawDupB.price = some 20 :=
  ⟨by decide, by decide, by decide, by decide, by decide⟩

/-- C4 amended: when two raw roster entries canonicalize to the same
identity, the merged entry has the later-seen entry's non-contract fields
(name, type, team, pos), underContract equal to the OR of both flags, and
contractYear, contractTotal and price equal to the earlier-seen entry's
normalized values (which always parse finite, so the later entry's
contract numbers are never used). -/
theorem getRoster_merge_policy (a b : RawPlayer)
    (h : rawEntryKey a = rawEntryKey b) :
    migrateRoster [a, b]
      = [{ id := rawEntryKey a
           name := jsTrim (normalizeRosterPlayer b).name
           type := (normalizeRosterPlayer b).type
           team := (normalizeRosterPlayer b).team
           pos := (normalizeRosterPlayer b).pos
           underContract := (normalizeRosterPlayer a).underContract
             || (normalizeRosterPlayer b).underContract
           contractYear := (normalizeRosterPlayer a).contractYear
           contractTotal := (normalizeRosterPlayer a).contractTotal
           price := (normalizeRosterPlayer a).price }] := by
  have hca := normalizeRosterPlayer_contractOk a
  simp only [rawEntryKey] at h ⊢
  simp only [migrateRoster, List.foldl_cons, List.foldl_nil]
  have h1 : migrateStep [] a
      = [{ normalizeRosterPlayer a with
             id := getPlayerKey (normalizeRosterPlayer a).type.str
               (jsTrim (normalizeRosterPlayer a).name)
             name := jsTrim (normalizeRosterPlayer a).name }] := by
    simp [migrateStep]
  rw [h1]
  simp only [migrateStep]
  rw [← h]
  rw [List.find?_cons_of_pos _ (by simp)]
  simp only [List.map_cons, List.map_nil]
  simp only [if_true]
  have hca2 : contractOk { normalizeRosterPlayer a with
      id := getPlayerKey (normalizeRosterPlayer a).type.str
        (jsTrim (normalizeRosterPlayer a).name)
      name := jsTrim (normalizeRosterPlayer a).name } := hca
  rw [mergeDup_eq hca2]

/-- Witness for the amended duplicate-merge policy at the concrete
counterexample pair. -/
theorem getRoster_merge_policy_witness :
    migrateRoster [rawDupA, rawDupB]
      = [{ id := rawEntryKey rawDupA
           name := jsTrim (normalizeRosterPlayer rawDupB).name
           type := (normalizeRosterPlayer rawDupB).type
           team := (normalizeRosterPlayer rawDupB).team
           pos := (normalizeRosterPlayer rawDupB).pos
           underContract := (normalizeRosterPlayer rawDupA).underContract
             || (normalizeRosterPlayer rawDupB).underContract
           contractYear := (normalizeRosterPlayer rawDupA).contractYear
           contractTotal := (normalizeRosterPlayer rawDupA).contractTotal
           price := (normalizeRosterPlayer rawDupA).price }] :=
  getRoster_merge_policy rawDupA rawDupB (by decide)

/-- C10: updateAuctionTarget replaces the found target by the spread of
the patch over it — every present patch field is copied verbatim (id and
player_key included), with only plan/max/enforce re-coerced to numbers
when actually present — whereas updateRosterPlayer always re-pins the
looked-up id over whatever the patch carried. -/
theorem updateAuctionTarget_patch_semantics
    (cur : Target) (rest : List Target) (idv : JSVal) (q : TargetPatch)
    (hid : jsStrictEq cur.id idv = true)
    (roster : List RosterPlayer) (rid : String) (rq : RosterPatch)
    (r1 : RosterPlayer) (l1 : List RosterPlayer)
    (hupd : updateRosterPlayer roster rid rq = (some r1, l1)) :
    updateAuctionTarget (cur :: rest) idv q = applyTargetPatch cur q :: rest
    ∧ (applyTargetPatch cur q).id = q.id.getD cur.id
    ∧ (applyTargetPatch cur q).player_key = q.player_key.getD cur.player_key
    ∧ (applyTargetPatch cur q).name = q.name.getD cur.name
    ∧ (applyTargetPatch cur q).notes = q.notes.getD cur.notes
    ∧ (∀ v, q.plan = some v → v ≠ vundef
        → (applyTargetPatch cur q).plan = numJS v)
    ∧ r1.id = rid := by
  refine ⟨?_, rfl, rfl, rfl, rfl, ?_, ?_⟩
  · simp [updateAuctionTarget, List.findIdx?_cons, hid]
  · intro v hv hvu
    simp only [applyTargetPatch, TargetIn.fld, hv, Option.getD_some]
    rw [if_pos hvu]
  · unfold updateRosterPlayer at hupd
    rcases hfi : roster.findIdx? (fun r => r.id = rid) with _ | i
    · simp only [hfi] at hupd
      exact absurd (congrArg Prod.fst hupd) (by simp)
    · simp only [hfi] at hupd
      rcases hg : roster.get? i with _ | cur2
      · simp only [hg] at hupd
        exact absurd (congrArg Prod.fst hupd) (by simp)
      · simp only [hg] at hupd
        rw [Prod.mk.injEq] at hupd
        obtain ⟨h2, -⟩ := hupd
        injection h2 with h4
        rw [← h4]
        rfl

/-- Witness for the target-patch semantics at a concrete target, patch
(carrying id, player_key and a string plan) and a concrete roster update
whose patch tries to overwrite the id. -/
theorem updateAuctionTarget_patch_semantics_witness :
    updateAuctionTarget [tgtCur] (vstr "t1") tgtPatch
        = applyTargetPatch tgtCur tgtPatch :: []
    ∧ (applyTargetPatch tgtCur tgtPatch).id = tgtPatch.id.getD tgtCur.id
    ∧ (applyTargetPatch tgtCur tgtPatch).player_key
        = tgtPatch.player_key.getD tgtCur.player_key
    ∧ (applyTargetPatch tgtCur tgtPatch).name = tgtPatch.name.getD tgtCur.name
    ∧ (applyTargetPatch tgtCur tgtPatch).notes
        = tgtPatch.notes.getD tgtCur.notes
    ∧ (applyTargetPatch tgtCur tgtPatch).plan = numJS (vstr "9")
    ∧ eW.id = "hit|a" :=
  have h := updateAuctionTarget_patch_semantics tgtCur [] (vstr "t1") tgtPatch
    (by decide) [eW] "hit|a" rpatchEvil eW [eW] (by decide)
  ⟨h.1, h.2.1, h.2.2.1, h.2.2.2.1, h.2.2.2.2.1,
   h.2.2.2.2.2.1 (vstr "9") rfl (by decide), h.2.2.2.2.2.2⟩

/-- C8: calling addToRosterFromCsv twice with the same CSV record leaves
exactly one roster entry for the record's canonical id, and the second
call returns the same entry and persists the same roster as the first
(in particular no contract field is touched). -/
theorem addToRosterFromCsv_idem (rs : List RawPlayer) (c : CsvRecord) :
    ((addToRosterFromCsv ((addToRosterFromCsv rs c).2.map npToRaw) c).2.filter
        (fun e => e.id = csvId c)).length = 1
    ∧ (addToRosterFromCsv ((addToRosterFromCsv rs c).2.map npToRaw) c).1
        = (addToRosterFromCsv rs c).1
    ∧ (addToRosterFromCsv ((addToRosterFromCsv rs c).2.map npToRaw) c).2
        = (addToRosterFromCsv rs c).2 := by
  obtain ⟨hInv, hN⟩ := migrateRoster_stateOk rs
  rcases hfind : (migrateRoster rs).find? (fun r => r.id = csvId c) with _ | ex
  · have hnew : ∀ x ∈ migrateRoster rs, ¬ x.id = csvId c := by
      intro x hx
      have := List.find?_eq_none.mp hfind x hx
      simpa using this
    have hL1 : addToRosterFromCsv rs c
        = (createdCsv c, createdCsv c :: migrateRoster rs) := by
      rw [addToRosterFromCsv, addCsvCore_new hfind]
    have hstate : stateOk (createdCsv c :: migrateRoster rs) := by
      constructor
      · intro e he
        rcases List.mem_cons.mp he with rfl | hm
        · exact createdCsv_entryOk c
        · exact hInv e hm
      · rw [List.map_cons, List.nodup_cons]
        refine ⟨fun hmem => ?_, hN⟩
        rcases List.mem_map.mp hmem with ⟨x, hx, hxid⟩
        exact hnew x hx hxid
    have hroster2 : migrateRoster ((createdCsv c :: migrateRoster rs).map npToRaw)
        = createdCsv c :: migrateRoster rs := migrate_self hstate
    have hfind2 : (createdCsv c :: migrateRoster rs).find?
        (fun r => r.id = csvId c) = some (createdCsv c) :=
      List.find?_cons_of_pos _ (by simp [createdCsv])
    have hsecond : addToRosterFromCsv ((addToRosterFromCsv rs c).2.map npToRaw) c
        = (createdCsv c, createdCsv c :: migrateRoster rs) := by
      rw [hL1]
      show addCsvCore (migrateRoster ((createdCsv c :: migrateRoster rs).map npToRaw)) c = _
      rw [hroster2, addCsvCore_found hfind2 (createdCsv_entryOk c).1,
        mergedCsv_createdCsv]
      have hrepl : (createdCsv c :: migrateRoster rs).map
          (fun r => if r.id = csvId c then createdCsv c else r)
          = createdCsv c :: migrateRoster rs := by
        apply replace_self
        intro x hx hxid
        rcases List.mem_cons.mp hx with rfl | hm
        · rfl
        · exact absurd hxid (hnew x hm)
      rw [hrepl]
    rw [hsecond, hL1]
    refine ⟨?_, rfl, rfl⟩
    apply filter_id_length_one hstate.2
    exact ⟨createdCsv c, List.mem_cons_self _ _, rfl⟩
  · have hexmem := List.mem_of_find?_eq_some hfind
    have hexid : ex.id = csvId c := by simpa using List.find?_some hfind
    have hexOk := hInv ex hexmem
    have hmOk : entryOk (mergedCsv ex c) := mergedCsv_entryOk hexOk hexid
    have hmid : (mergedCsv ex c).id = csvId c := hexid
    have hL1 : addToRosterFromCsv rs c
        = (mergedCsv ex c, (migrateRoster rs).map
            (fun r => if r.id = csvId c then mergedCsv ex c else r)) := by
      rw [addToRosterFromCsv, addCsvCore_found hfind hexOk.1]
    have hstate : stateOk ((migrateRoster rs).map
        (fun r => if r.id = csvId c then mergedCsv ex c else r)) := by
      constructor
      · intro e he
        rcases List.mem_map.mp he with ⟨x, hx, rfl⟩
        by_cases hxid : x.id = csvId c
        · rw [if_pos hxid]; exact hmOk
        · rw [if_neg hxid]; exact hInv x hx
      · rw [replace_preserve_ids hmid]
        exact hN
    have hroster2 : migrateRoster (((migrateRoster rs).map
        (fun r => if r.id = csvId c then mergedCsv ex c else r)).map npToRaw)
        = (migrateRoster rs).map
            (fun r => if r.id = csvId c then mergedCsv ex c else r) :=
      migrate_self hstate
    have hfind2 : ((migrateRoster rs).map
        (fun r => if r.id = csvId c then mergedCsv ex c else r)).find?
          (fun r => r.id = csvId c) = some (mergedCsv ex c) :=
      find?_replace hmid ⟨ex, hexmem, hexid⟩
    have hsecond : addToRosterFromCsv ((addToRosterFromCsv rs c).2.map npToRaw) c
        = (mergedCsv ex c, (migrateRoster rs).map
            (fun r => if r.id = csvId c then mergedCsv ex c else r)) := by
      rw [hL1]
      show addCsvCore (migrateRoster (((migrateRoster rs).map
          (fun r => if r.id = csvId c then mergedCsv ex c else r)).map npToRaw)) c = _
      rw [hroster2, addCsvCore_found hfind2 (by exact hexOk.1), mergedCsv_idem]
      have hrepl : ((migrateRoster rs).map
          (fun r => if r.id = csvId c then mergedCsv ex c else r)).map
            (fun r => if r.id = csvId c then mergedCsv ex c else r)
          = (migrateRoster rs).map
              (fun r => if r.id = csvId c then mergedCsv ex c else r) := by
        apply replace_self
        intro x hx hxid
        rcases List.mem_map.mp hx with ⟨y, hy, rfl⟩
        by_cases hyid : y.id = csvId c
        · rw [if_pos hyid]
        · rw [if_neg hyid] at hxid ⊢
          exact absurd hxid hyid
      rw [hrepl]
    rw [hsecond, hL1]
    refine ⟨?_, rfl, rfl⟩
    apply filter_id_length_one hstate.2
    exact ⟨mergedCsv ex c,
      List.mem_map.mpr ⟨ex, hexmem, by rw [if_pos hexid]⟩, hmid⟩

end HAG
